import Mathlib

set_option maxRecDepth 20000

/-!
Verification development for the DuggerGitTools version-synchronization and
checkpoint/rollback core (`dgt/core/universal_versioning.py`,
`dgt/core/universal_rollback.py`, `dgt/core/schema.py`).

File contents are modelled as plain character lists (`Str`); the file system
is an association list from path to `Option String` (`some` = readable
content, `none` = the file exists but reading it raises).  The regex engine
below implements, with explicit fuel and backtracking priority order, the
fragment of Python `re` that the version patterns of this project use:
literals, escapes (`\d`, `\s`, escaped metacharacters), character classes,
`*`, `+`, `.`, and one capturing group; `\d`/`\s` are modelled as their ASCII
sets (exact on ASCII inputs).  `re.search` scans left to right; `re.sub`
replaces every non-overlapping leftmost match and processes backslash escapes
in a string replacement.
-/

namespace DGT

/-- Characters of a Python `str`, used for all content-level reasoning. -/
abbrev Str := List Char

/-- Python `\s` (ASCII part): space, tab, newline, carriage return, form feed,
vertical tab. -/
def isSpaceChar (c : Char) : Bool :=
  c = ' ' || c = '\t' || c = '\n' || c = '\x0d' || c = '\x0c' || c = '\x0b'

/-- `str.replace(old, new)` when `old` is empty: Python inserts `new` at every
position, including both ends. -/
def interleaveAll (s new : Str) : Str :=
  match s with
  | [] => new
  | c :: rest => new ++ c :: interleaveAll rest new

/-- Fuel-driven scan of Python `str.replace`: replace every non-overlapping
occurrence of `old` (nonempty) left to right. -/
def pyReplaceF : Nat → Str → Str → Str → Str
  | 0, s, _, _ => s
  | fuel + 1, s, old, new =>
    match s with
    | [] => []
    | c :: rest =>
      if old.isPrefixOf (c :: rest) then
        new ++ pyReplaceF fuel ((c :: rest).drop old.length) old new
      else
        c :: pyReplaceF fuel rest old new

/-- Python `s.replace(old, new)`. -/
def pyReplace (s old new : Str) : Str :=
  if old = [] then interleaveAll s new else pyReplaceF s.length s old new

/-- Split `s` at the first occurrence of `old` (the same left-to-right scan
as `pyReplace`): returns the part before the occurrence and the part after. -/
def splitFirstOcc (s old : Str) : Option (Str × Str) :=
  if old.isPrefixOf s then some ([], s.drop old.length)
  else
    match s with
    | [] => none
    | c :: rest => (splitFirstOcc rest old).map (fun ab => (c :: ab.1, ab.2))

/-- Python `template.format(new_version=v)` for the replacement templates of
this project: substitute every `\x7bnew_version\x7d` placeholder. -/
def fmtTemplate (tmpl v : Str) : Str :=
  pyReplace tmpl "{new_version}".data v

/-- Regex AST for the pattern fragment used by the project's version formats. -/
inductive RE where
  | eps : RE
  | lit : Char → RE
  | cls : Bool → List Char → RE
  | anyc : RE
  | digit : RE
  | space : RE
  | cat : RE → RE → RE
  | star : RE → RE
  | group : RE → RE
deriving Repr, DecidableEq

/-- Structural size of a regex, used to compute a safe fuel bound. -/
def sizeRE : RE → Nat
  | .eps => 1
  | .lit _ => 1
  | .cls _ _ => 1
  | .anyc => 1
  | .digit => 1
  | .space => 1
  | .cat r1 r2 => sizeRE r1 + sizeRE r2 + 1
  | .star r => sizeRE r + 1
  | .group r => sizeRE r + 1

/-- Backtracking matcher at the start of `s`: returns the list of
`(consumed length, capture of group 1)` alternatives in Python's backtracking
priority order (greedy first); the head is the match Python commits to.
Star iterations must consume input, as in Python's repeat handling. -/
def mtchF : Nat → RE → Str → List (Nat × Option Str)
  | 0, _, _ => []
  | fuel + 1, r, s =>
    match r with
    | .eps => [(0, none)]
    | .lit ch =>
      match s with
      | [] => []
      | d :: _ => if d = ch then [(1, none)] else []
    | .cls neg chars =>
      match s with
      | [] => []
      | d :: _ => if (chars.contains d) ≠ neg then [(1, none)] else []
    | .anyc =>
      match s with
      | [] => []
      | d :: _ => if d = '\n' then [] else [(1, none)]
    | .digit =>
      match s with
      | [] => []
      | d :: _ => if d.isDigit then [(1, none)] else []
    | .space =>
      match s with
      | [] => []
      | d :: _ => if isSpaceChar d then [(1, none)] else []
    | .cat r1 r2 =>
      (mtchF fuel r1 s).flatMap (fun p =>
        (mtchF fuel r2 (s.drop p.1)).map (fun q => (p.1 + q.1, p.2 <|> q.2)))
    | .star r1 =>
      (((mtchF fuel r1 s).filter (fun p => 0 < p.1)).flatMap (fun p =>
        (mtchF fuel (.star r1) (s.drop p.1)).map
          (fun q => (p.1 + q.1, q.2 <|> p.2))))
      ++ [(0, none)]
    | .group r1 =>
      (mtchF fuel r1 s).map (fun p => (p.1, some (s.take p.1)))

/-- A fuel bound sufficient for every backtracking path of `mtchF`. -/
def bigFuel (r : RE) (s : Str) : Nat :=
  (s.length + 2) * (sizeRE r + 2)

/-- The match Python commits to at the start of `s`, if any. -/
def matchFirst (r : RE) (s : Str) : Option (Nat × Option Str) :=
  (mtchF (bigFuel r s) r s).head?

/-- Python `re.search`: scan start positions left to right; on success return
`(text before the match, group 0, group 1, text after the match)`. -/
def search (r : RE) (s : Str) : Option (Str × Str × Option Str × Str) :=
  match matchFirst r s with
  | some (n, cap) => some ([], s.take n, cap, s.drop n)
  | none =>
    match s with
    | [] => none
    | ch :: rest =>
      (search r rest).map (fun q => (ch :: q.1, q.2.1, q.2.2.1, q.2.2.2))

/-- Escape processing of a Python string replacement passed to `re.sub`:
`\\` is a literal backslash and `\1` refers to group 1 (error if the group
did not participate); any other escape is an error, and a replacement without
backslashes is literal. -/
def expandRepl : Str → Str → Option Str → Option Str
  | [], _, _ => some []
  | c :: rest, g0, g1 =>
    if c = '\\' then
      match rest with
      | [] => none
      | d :: rest2 =>
        if d = '\\' then (expandRepl rest2 g0 g1).map (fun t => '\\' :: t)
        else if d = '1' then
          match g1 with
          | none => none
          | some g => (expandRepl rest2 g0 g1).map (fun t => g ++ t)
        else none
    else (expandRepl rest g0 g1).map (fun t => c :: t)

/-- Fuel-driven core of Python `re.sub`: replace every non-overlapping
leftmost match of `r`; after an empty match one character is copied and
scanning resumes, as in Python 3.7+.  `repl` receives group 0 and group 1 of
each match and may fail (an exception inside `re.sub`). -/
def subF : Nat → RE → (Str → Option Str → Option Str) → Str → Option Str
  | 0, _, _, _ => none
  | fuel + 1, r, repl, s =>
    match search r s with
    | none => some s
    | some (pre, g0, g1, post) =>
      match repl g0 g1 with
      | none => none
      | some rep =>
        if g0 = [] then
          match post with
          | [] => some (pre ++ rep)
          | c :: rest =>
            (subF fuel r repl rest).map (fun t => pre ++ rep ++ c :: t)
        else
          (subF fuel r repl post).map (fun t => pre ++ rep ++ t)

/-- Python `re.sub(pattern, repl, s)` with a function replacement. -/
def sub (r : RE) (repl : Str → Option Str → Option Str) (s : Str) : Option Str :=
  subF (s.length + 1) r repl s

/-- Python `re.sub(pattern, replStr, s)` with a string replacement
(escape-processed per match). -/
def subStr (r : RE) (replStr : Str) (s : Str) : Option Str :=
  sub r (fun g0 g1 => expandRepl replStr g0 g1) s

/-- Regex metacharacters: a bare occurrence outside a class is either an
operator handled by the parser or an unsupported construct. -/
def isMeta (c : Char) : Bool :=
  c = '*' || c = '+' || c = '?' || c = '(' || c = ')' || c = '[' || c = ']' ||
  c = '\\' || c = '.' || c = '^' || c = '$' || c = '|' || c = '{' || c = '}'

/-- An escape `\c` outside a class: `\d`, `\s`, or an escaped
non-alphanumeric character; other escapes are outside the supported
fragment. -/
def parseEsc (c : Char) : Option RE :=
  if c = 'd' then some .digit
  else if c = 's' then some .space
  else if c.isAlphanum then none
  else some (.lit c)

/-- Characters of a class body, up to the closing `]`; plain characters only
(ranges and escapes inside a class are outside the supported fragment). -/
def parseClsChars : Str → Option (List Char × Str)
  | [] => none
  | ']' :: rest => some ([], rest)
  | '\\' :: _ => none
  | '-' :: _ => none
  | '[' :: _ => none
  | c :: rest => (parseClsChars rest).map (fun p => (c :: p.1, p.2))

mutual

/-- One atom of the pattern grammar; `gseen` counts capturing groups already
opened, and the first group becomes the capturing `RE.group`. -/
def parseAtom (fuel : Nat) (gseen : Nat) (s : Str) : Option (RE × Nat × Str) :=
  match fuel with
  | 0 => none
  | fuel + 1 =>
    match s with
    | [] => none
    | '\\' :: [] => none
    | '\\' :: c :: rest => (parseEsc c).map (fun r => (r, gseen, rest))
    | '(' :: rest =>
      match parseSeq fuel (gseen + 1) .eps rest with
      | some (r, g', ')' :: rest2) =>
        some (if gseen = 0 then .group r else r, g', rest2)
      | _ => none
    | '[' :: '^' :: rest =>
      (parseClsChars rest).map (fun p => (.cls true p.1, gseen, p.2))
    | '[' :: rest =>
      (parseClsChars rest).map (fun p => (.cls false p.1, gseen, p.2))
    | '.' :: rest => some (.anyc, gseen, rest)
    | c :: rest => if isMeta c then none else some (.lit c, gseen, rest)

/-- A sequence of atoms with `*`/`+` suffix operators, stopping at `)` or at
the end of the pattern. -/
def parseSeq (fuel : Nat) (gseen : Nat) (acc : RE) (s : Str) :
    Option (RE × Nat × Str) :=
  match fuel with
  | 0 => none
  | fuel + 1 =>
    match s with
    | [] => some (acc, gseen, [])
    | ')' :: rest => some (acc, gseen, ')' :: rest)
    | _ =>
      match parseAtom fuel gseen s with
      | none => none
      | some (a, g', rest) =>
        match rest with
        | '*' :: rest2 => parseSeq fuel g' (.cat acc (.star a)) rest2
        | '+' :: rest2 => parseSeq fuel g' (.cat acc (.cat a (.star a))) rest2
        | _ => parseSeq fuel g' (.cat acc a) rest

end

/-- Python `re.compile` on the supported fragment: returns the compiled regex
together with the number of capturing groups, or `none` when the pattern is
invalid (or outside the fragment). -/
def compileRE (p : String) : Option (RE × Nat) :=
  match parseSeq (2 * p.length + 2) 0 .eps p.data with
  | some (r, g, []) => some (r, g)
  | _ => none

/-- `VersionFormat` of `dgt/core/schema.py`: where a version string lives in a
manifest file and how to rewrite it.  The `encoding` field is dropped: file
contents are modelled as decoded text directly. -/
structure VersionFormat where
  file_path : String
  pattern : String
  replacement : Option String
deriving Repr, DecidableEq

/-- The file system under the project root: path to `some content` for a
readable file, `none` for a file that exists but whose read raises; absent
paths are missing files. -/
abbrev FS := List (String × Option String)

/-- Look a path up: `none` = missing, `some none` = exists but unreadable,
`some (some c)` = readable content `c`. -/
def FS.read : FS → String → Option (Option String)
  | [], _ => none
  | (q, v) :: rest, p => if q = p then some v else FS.read rest p

/-- `Path.write_text`: overwrite the file at `p` (creating it if missing). -/
def FS.write : FS → String → String → FS
  | [], p, c => [(p, some c)]
  | (q, v) :: rest, p, c =>
    if q = p then (q, some c) :: rest else (q, v) :: FS.write rest p c

/-- Longest ASCII-digit run at the front of `s` (the greedy `\d+`). -/
def takeDigits : Str → Str × Str
  | [] => ([], [])
  | c :: rest =>
    if c.isDigit then
      let p := takeDigits rest
      (c :: p.1, p.2)
    else ([], c :: rest)

/-- Decimal value of a digit run, as Python `int()` computes it (arbitrary
precision, leading zeros allowed). -/
def digitsToNat : Str → Nat
  | [] => 0
  | ds => ds.foldl (fun acc c => 10 * acc + (c.toNat - '0'.toNat)) 0

/-- One `(\d+)` group: a nonempty maximal digit run converted by `int()`,
with the unconsumed rest. -/
def takeDigits1 (s : Str) : Option (Nat × Str) :=
  if (takeDigits s).1 = [] then none
  else some (digitsToNat (takeDigits s).1, (takeDigits s).2)

/-- One literal `\.` of the version regex. -/
def expectDot : Str → Option Str
  | [] => none
  | c :: rest => if c = '.' then some rest else none

/-- Python `re.match(r"(\d+)\.(\d+)\.(\d+)", s)`: the anchored-at-start
prefix match used by `_calculate_new_version`, returning the three integer
components and the unconsumed rest of the string. -/
def parseVerTriple (s : Str) : Option (Nat × Nat × Nat × Str) :=
  (takeDigits1 s).bind (fun p1 =>
    (expectDot p1.2).bind (fun r2 =>
      (takeDigits1 r2).bind (fun p2 =>
        (expectDot p2.2).bind (fun r4 =>
          (takeDigits1 r4).map (fun p3 => (p1.1, p2.1, p3.1, p3.2))))))

/-- `UniversalVersionManager._calculate_new_version`: parse a
`MAJOR.MINOR.PATCH` prefix; on failure (or an unknown bump type) return the
input unchanged after logging. -/
def calculate_new_version (current_version bump_type : String) : String :=
  match parseVerTriple current_version.data with
  | none => current_version
  | some (major, minor, patch, _) =>
    if bump_type = "major" then s!"{major + 1}.0.0"
    else if bump_type = "minor" then s!"{major}.{minor + 1}.0"
    else if bump_type = "patch" then s!"{major}.{minor}.{patch + 1}"
    else current_version

/-- Strict `MAJOR.MINOR.PATCH` shape: the whole string is a full match of
`\d+\.\d+\.\d+` (the spec's notion of a valid strict semver string). -/
def strict_semver_shape (s : Str) : Bool :=
  match parseVerTriple s with
  | some (_, _, _, []) => true
  | _ => false

/-- `UniversalVersionManager._is_valid_semver`:
`re.match(r"^\d+\.\d+\.\d+$", version)`.  Python's `$` also matches just
before a single trailing newline, so the unconsumed rest may be `"\n"`. -/
def is_valid_semver (version : String) : Bool :=
  match parseVerTriple version.data with
  | some (_, _, _, rest) => rest = [] || rest = ['\n']
  | none => false

/-- The per-file body of `get_current_versions` (and of
`_capture_version_state`, which repeats it verbatim): read the file, search
the pattern, extract group 1.  Every failure — missing file, read error,
invalid pattern, no match, missing group (the exceptions are caught and
logged) — yields `none` and the file is silently omitted. -/
def read_version (fmt : VersionFormat) (fs : FS) : Option String :=
  match FS.read fs fmt.file_path with
  | none => none
  | some none => none
  | some (some content) =>
    match compileRE fmt.pattern with
    | none => none
    | some (r, _) =>
      match search r content.data with
      | none => none
      | some (_, _, g1, _) => g1.map (fun g => String.mk g)

/-- `UniversalVersionManager.get_current_versions`: mapping from file path to
the extracted version string, in configuration order. -/
def get_current_versions (formats : List VersionFormat) (fs : FS) :
    List (String × String) :=
  formats.filterMap (fun fmt => (read_version fmt fs).map (fun v => (fmt.file_path, v)))

/-- The per-file update step of `bump_version`: re-read the file, search the
pattern, then either substitute the filled replacement template across every
match, or substitute group 0 of the *first* match with its group 1 swapped for
the new version.  Any caught exception leaves the file untouched and
unreported. -/
def bump_file (fmt : VersionFormat) (new_version : String) (st : FS × List (String × String)) :
    FS × List (String × String) :=
  match FS.read st.1 fmt.file_path with
  | none => st
  | some none => st
  | some (some content) =>
    match compileRE fmt.pattern with
    | none => st
    | some (r, _) =>
      match search r content.data with
      | none => st
      | some (_, g0, g1, _) =>
        match fmt.replacement with
        | some tmpl =>
          match subStr r (fmtTemplate tmpl.data new_version.data) content.data with
          | none => st
          | some nc =>
            (FS.write st.1 fmt.file_path (String.mk nc),
             st.2 ++ [(fmt.file_path, new_version)])
        | none =>
          match g1 with
          | none => st
          | some g1s =>
            match subStr r (pyReplace g0 g1s new_version.data) content.data with
            | none => st
            | some nc =>
              (FS.write st.1 fmt.file_path (String.mk nc),
               st.2 ++ [(fmt.file_path, new_version)])

/-- `UniversalVersionManager.bump_version`: raise `ValueError` when no version
was read; otherwise bump the first read version and rewrite every configured
file, returning the mapping of files actually updated together with the
resulting file system. -/
def bump_version (formats : List VersionFormat) (fs : FS) (bump_type : String) :
    Except String (List (String × String) × FS) :=
  match get_current_versions formats fs with
  | [] => .error "No version files found to bump"
  | (_, base_version) :: _ =>
    let new_version := calculate_new_version base_version bump_type
    let st := formats.foldl (fun st fmt => bump_file fmt new_version st) (fs, [])
    .ok (st.2, st.1)

/-- The content `sync_versions` writes for one file, if any.  With a
replacement template the substitution is applied *without* checking for a
match first (so the file is written and reported even when nothing matched);
without a template the file is skipped (`none`) when the pattern does not
match.  An invalid pattern, missing group or substitution error is a caught
exception, also skipping the file. -/
def sync_subst (fmt : VersionFormat) (target content : String) : Option String :=
  match compileRE fmt.pattern with
  | none => none
  | some (r, _) =>
    match fmt.replacement with
    | some tmpl =>
      (subStr r (fmtTemplate tmpl.data target.data) content.data).map
        (fun nc => String.mk nc)
    | none =>
      match search r content.data with
      | none => none
      | some (_, g0, g1, _) =>
        match g1 with
        | none => none
        | some g1s =>
          (subStr r (pyReplace g0 g1s target.data) content.data).map
            (fun nc => String.mk nc)

/-- The per-file update step of `sync_versions`. -/
def sync_file (fmt : VersionFormat) (target : String) (st : FS × List (String × String)) :
    FS × List (String × String) :=
  match FS.read st.1 fmt.file_path with
  | none => st
  | some none => st
  | some (some content) =>
    match sync_subst fmt target content with
    | none => st
    | some nc =>
      (FS.write st.1 fmt.file_path nc, st.2 ++ [(fmt.file_path, target)])

/-- `UniversalVersionManager.sync_versions`: raise `ValueError` for a target
that fails `_is_valid_semver`, before any file is read or written; otherwise
rewrite every configured file to the target version. -/
def sync_versions (formats : List VersionFormat) (fs : FS) (target_version : String) :
    Except String (List (String × String) × FS) :=
  if is_valid_semver target_version then
    let st := formats.foldl (fun st fmt => sync_file fmt target_version st) (fs, [])
    .ok (st.2, st.1)
  else
    .error ("Invalid target version: " ++ target_version)

/-- `DuggerSchema.validate_version_formats` (pydantic validator, run at
schema-load time): reject an empty list, then reject any pattern
`re.compile` refuses.  The number of capturing groups is *not* inspected. -/
def validate_version_formats (v : List VersionFormat) :
    Except String (List VersionFormat) :=
  if v = [] then .error "At least one version format must be defined"
  else if v.all (fun fmt => (compileRE fmt.pattern).isSome) then .ok v
  else .error "Invalid regex pattern in version format"

/-- The per-entry body of `RollbackManager._rollback_version_state`: find the
configured format for the checkpointed path; with a replacement template the
code performs a literal `str.replace` of the template instantiated with the
word `CURRENT_VERSION` by the template instantiated with the checkpointed
version; without a template it applies `re.sub` with a per-match lambda
substituting group 1 inside group 0.  Failures set the success flag to
`False` but later entries are still processed. -/
def rollback_version_file (formats : List VersionFormat)
    (st : FS × Bool) (entry : String × String) : FS × Bool :=
  let path := entry.1
  let target := entry.2
  match formats.find? (fun vf => vf.file_path = path) with
  | none => (st.1, false)
  | some fmt =>
    match FS.read st.1 path with
    | none => (st.1, false)
    | some none => (st.1, false)
    | some (some content) =>
      match fmt.replacement with
      | some tmpl =>
        let nc := pyReplace content.data
          (fmtTemplate tmpl.data "CURRENT_VERSION".data)
          (fmtTemplate tmpl.data target.data)
        (FS.write st.1 path (String.mk nc), st.2)
      | none =>
        match compileRE fmt.pattern with
        | none => (st.1, false)
        | some (r, _) =>
          match sub r (fun g0 g1 => g1.map (fun g => pyReplace g0 g target.data)) content.data with
          | none => (st.1, false)
          | some nc => (FS.write st.1 path (String.mk nc), st.2)

/-- `RollbackManager._rollback_version_state`: restore every checkpointed
version, accumulating an overall success flag. -/
def rollback_version_state (formats : List VersionFormat)
    (version_state : List (String × String)) (fs : FS) : FS × Bool :=
  version_state.foldl (fun st entry => rollback_version_file formats st entry) (fs, true)

/-- The fixed configuration file names snapshotted by
`_capture_file_snapshots`. -/
def configFiles : List String :=
  ["dugger.yaml", "dugger.yml", ".dgtrc", ".dugger.json"]

/-- `RollbackManager._capture_file_snapshots`: raw content of every readable
configured version file plus the known configuration files.  A file that
exists but cannot be read raises inside the per-file `try`, is logged as a
warning and *skipped*. -/
def capture_file_snapshots (formats : List VersionFormat) (fs : FS) :
    List (String × String) :=
  (formats.filterMap (fun fmt =>
    match FS.read fs fmt.file_path with
    | some (some c) => some (fmt.file_path, c)
    | _ => none))
  ++ (configFiles.filterMap (fun p =>
    match FS.read fs p with
    | some (some c) => some (p, c)
    | _ => none))

/-- `RollbackManager._capture_version_state`: same extraction as
`get_current_versions`. -/
def capture_version_state (formats : List VersionFormat) (fs : FS) :
    List (String × String) :=
  get_current_versions formats fs

/-- The checkpoint document written by `create_checkpoint`, restricted to the
fields the modelled subsystem reads back (provenance metadata and the git
state are captured from external collaborators and are not modelled). -/
structure Checkpoint where
  operation_id : String
  description : String
  file_snapshots : List (String × String)
  version_state : List (String × String)
deriving Repr, DecidableEq

/-- `RollbackManager.create_checkpoint`: capture the snapshots and version
state and return the checkpoint document.  None of the modelled capture steps
raises, so creation always succeeds. -/
def create_checkpoint (formats : List VersionFormat) (fs : FS)
    (operation_id description : String) : Checkpoint :=
  ⟨operation_id, description,
   capture_file_snapshots formats fs,
   capture_version_state formats fs⟩

/-- `RollbackContext.__exit__(exc_type, exc_val, exc_tb)`: the pair is
`(rollback_to_checkpoint was invoked, value returned to Python)`.  Python
suppresses the in-flight exception exactly when an exception is present and
the returned value is truthy. -/
def rollback_context_exit (exc_present should_rollback : Bool) : Bool × Bool :=
  if exc_present && should_rollback then (true, false) else (false, true)

/-- Rebuilding a string from its character data is the identity. -/
theorem mkData (s : String) : String.mk s.data = s := rfl

/-- Reading a path just written returns the written content. -/
theorem FS.read_write (fs : FS) (p c : String) :
    FS.read (FS.write fs p c) p = some (some c) := by
  induction fs with
  | nil => simp [FS.write, FS.read]
  | cons hd tl ih =>
    obtain ⟨q, v⟩ := hd
    by_cases h : q = p
    · simp [FS.write, FS.read, h]
    · simp [FS.write, FS.read, h, ih]

/-- Unfolding equation of `search` on the empty input. -/
theorem search_nil (r : RE) :
    search r [] =
      match matchFirst r [] with
      | some (n, cap) => some ([], List.take n [], cap, List.drop n [])
      | none => none := by
  rw [search]

/-- Unfolding equation of `search` on a nonempty input. -/
theorem search_cons (r : RE) (ch : Char) (rest : Str) :
    search r (ch :: rest) =
      match matchFirst r (ch :: rest) with
      | some (n, cap) =>
        some ([], List.take n (ch :: rest), cap, List.drop n (ch :: rest))
      | none =>
        (search r rest).map (fun q => (ch :: q.1, q.2.1, q.2.2.1, q.2.2.2)) := by
  rw [search]

/-- A successful `search` decomposes its input into prefix, match and
suffix. -/
theorem search_decomp (r : RE) :
    ∀ (s pre g0 : Str) (g1 : Option Str) (post : Str),
      search r s = some (pre, g0, g1, post) → pre ++ g0 ++ post = s := by
  intro s
  induction s with
  | nil =>
    intro pre g0 g1 post h
    rw [search_nil] at h
    cases hm : matchFirst r [] with
    | some p =>
      rw [hm] at h
      obtain ⟨n, cap⟩ := p
      simp at h
      obtain ⟨h1, h2, _, h4⟩ := h
      subst h1; subst h2; subst h4
      simp
    | none => rw [hm] at h; simp at h
  | cons ch rest ih =>
    intro pre g0 g1 post h
    rw [search_cons] at h
    cases hm : matchFirst r (ch :: rest) with
    | some p =>
      rw [hm] at h
      obtain ⟨n, cap⟩ := p
      simp at h
      obtain ⟨h1, h2, _, h4⟩ := h
      subst h1; subst h2; subst h4
      simp [List.take_append_drop]
    | none =>
      rw [hm] at h
      cases hs : search r rest with
      | none => rw [hs] at h; simp at h
      | some q =>
        rw [hs] at h
        obtain ⟨q1, q2, q3, q4⟩ := q
        simp at h
        obtain ⟨h1, h2, h3, h4⟩ := h
        subst h1; subst h2; subst h3; subst h4
        have := ih q1 q2 q3 q4 hs
        simpa using congrArg (fun t => ch :: t) this

/-- The suffix after a nonempty match is strictly shorter than the input. -/
theorem post_lt_of_search (r : RE) (s pre g0 : Str) (g1 : Option Str) (post : Str)
    (h : search r s = some (pre, g0, g1, post)) (hg : g0 ≠ []) :
    post.length < s.length := by
  have hd := search_decomp r s pre g0 g1 post h
  have : pre.length + g0.length + post.length = s.length := by
    rw [← hd]; simp [List.length_append]; omega
  have hg1 : 0 < g0.length := List.length_pos.mpr hg
  omega

/-- Unfolding equation of `splitFirstOcc` on the empty input. -/
theorem splitFirstOcc_nil (old : Str) :
    splitFirstOcc [] old =
      if old.isPrefixOf ([] : Str) then some ([], List.drop old.length [])
      else none := rfl

/-- Unfolding equation of `splitFirstOcc` on a nonempty input. -/
theorem splitFirstOcc_cons (old : Str) (c : Char) (rest : Str) :
    splitFirstOcc (c :: rest) old =
      if old.isPrefixOf (c :: rest) then
        some ([], List.drop old.length (c :: rest))
      else (splitFirstOcc rest old).map (fun ab => (c :: ab.1, ab.2)) := rfl

/-- A successful `splitFirstOcc` decomposes its input around the needle. -/
theorem splitFirstOcc_decomp (old : Str) :
    ∀ s a b, splitFirstOcc s old = some (a, b) → s = a ++ old ++ b := by
  intro s
  induction s with
  | nil =>
    intro a b h
    rw [splitFirstOcc_nil] at h
    by_cases hp : old.isPrefixOf ([] : Str)
    · rw [if_pos hp] at h
      have : old <+: ([] : Str) := List.isPrefixOf_iff_prefix.mp hp
      obtain ⟨t, ht⟩ := this
      have hold : old = [] := by
        cases old with
        | nil => rfl
        | cons x xs => simp at ht
      simp at h
      obtain ⟨h1, h2⟩ := h
      subst h1; subst h2
      simp [hold]
    · rw [if_neg hp] at h
      simp at h
  | cons c rest ih =>
    intro a b h
    rw [splitFirstOcc_cons] at h
    by_cases hp : old.isPrefixOf (c :: rest)
    · rw [if_pos hp] at h
      have : old <+: (c :: rest) := List.isPrefixOf_iff_prefix.mp hp
      obtain ⟨t, ht⟩ := this
      simp at h
      obtain ⟨h1, h2⟩ := h
      subst h1; subst h2
      rw [← ht, List.drop_left]
      simp
    · rw [if_neg hp] at h
      cases hs : splitFirstOcc rest old with
      | none => rw [hs] at h; simp at h
      | some q =>
        rw [hs] at h
        obtain ⟨qa, qb⟩ := q
        simp at h
        obtain ⟨h1, h2⟩ := h
        subst h1
        subst h2
        have := ih qa qb hs
        simp [this]

/-- `pyReplaceF` on the empty input. -/
theorem pyReplaceF_nil (old new : Str) : ∀ f, pyReplaceF f [] old new = [] := by
  intro f; cases f <;> rfl

/-- Unfolding equation of `pyReplaceF` with positive fuel on a nonempty
input. -/
theorem pyReplaceF_succ_cons (old new : Str) (f : Nat) (c : Char) (rest : Str) :
    pyReplaceF (f + 1) (c :: rest) old new =
      if old.isPrefixOf (c :: rest) then
        new ++ pyReplaceF f ((c :: rest).drop old.length) old new
      else c :: pyReplaceF f rest old new := rfl

/-- `pyReplaceF` does not depend on the fuel once it covers the input
length. -/
theorem pyReplaceF_congr (old new : Str) (hold : old ≠ []) :
    ∀ f1 s f2, List.length s ≤ f1 → List.length s ≤ f2 →
      pyReplaceF f1 s old new = pyReplaceF f2 s old new := by
  intro f1
  induction f1 with
  | zero =>
    intro s f2 h1 _
    have hs : s = [] := List.eq_nil_of_length_eq_zero (Nat.le_zero.mp h1)
    subst hs
    rw [pyReplaceF_nil, pyReplaceF_nil]
  | succ f ih =>
    intro s f2 h1 h2
    cases s with
    | nil => rw [pyReplaceF_nil, pyReplaceF_nil]
    | cons c rest =>
      cases f2 with
      | zero => simp at h2
      | succ g =>
        have holdlen : 1 ≤ old.length := List.length_pos.mpr hold
        have hr : rest.length ≤ f := by simp at h1; omega
        have hr2 : rest.length ≤ g := by simp at h2; omega
        have hdrop : ((c :: rest).drop old.length).length ≤ rest.length := by
          simp [List.length_drop]; omega
        rw [pyReplaceF_succ_cons, pyReplaceF_succ_cons]
        by_cases hp : old.isPrefixOf (c :: rest)
        · rw [if_pos hp, if_pos hp,
              ih ((c :: rest).drop old.length) g (le_trans hdrop hr) (le_trans hdrop hr2)]
        · rw [if_neg hp, if_neg hp, ih rest g hr hr2]

/-- `str.replace` around the first occurrence of a nonempty needle. -/
theorem pyReplace_split (old new : Str) (hold : old ≠ []) :
    ∀ s a b, splitFirstOcc s old = some (a, b) →
      pyReplace s old new = a ++ new ++ pyReplace b old new := by
  intro s
  induction s with
  | nil =>
    intro a b h
    rw [splitFirstOcc_nil] at h
    have hnp : ¬ old.isPrefixOf ([] : Str) := by
      intro hp
      obtain ⟨t, ht⟩ := List.isPrefixOf_iff_prefix.mp hp
      cases old with
      | nil => exact hold rfl
      | cons x xs => simp at ht
    rw [if_neg hnp] at h
    simp at h
  | cons c rest ih =>
    intro a b h
    rw [splitFirstOcc_cons] at h
    by_cases hp : old.isPrefixOf (c :: rest)
    · rw [if_pos hp] at h
      simp at h
      obtain ⟨h1, h2⟩ := h
      subst h1
      subst h2
      have holdlen : 1 ≤ old.length := List.length_pos.mpr hold
      have hdrop : ((c :: rest).drop old.length).length ≤ rest.length := by
        simp [List.length_drop]; omega
      show pyReplace (c :: rest) old new =
        [] ++ new ++ pyReplace (List.drop old.length (c :: rest)) old new
      unfold pyReplace
      rw [if_neg hold, if_neg hold]
      have hlen : (c :: rest).length = rest.length + 1 := by simp
      rw [hlen, pyReplaceF_succ_cons, if_pos hp]
      rw [pyReplaceF_congr old new hold rest.length (List.drop old.length (c :: rest))
            ((c :: rest).drop old.length).length hdrop (le_refl _)]
      simp
    · rw [if_neg hp] at h
      cases hs : splitFirstOcc rest old with
      | none => rw [hs] at h; simp at h
      | some q =>
        rw [hs] at h
        obtain ⟨qa, qb⟩ := q
        simp at h
        obtain ⟨h1, h2⟩ := h
        subst h1
        subst h2
        have hrec := ih qa qb hs
        show pyReplace (c :: rest) old new = (c :: qa) ++ new ++ pyReplace qb old new
        unfold pyReplace
        rw [if_neg hold]
        have hlen : (c :: rest).length = rest.length + 1 := by simp
        rw [hlen, pyReplaceF_succ_cons, if_neg hp]
        unfold pyReplace at hrec
        rw [if_neg hold] at hrec
        rw [hrec]
        simp

/-- `str.replace` with a nonempty needle that does not occur is the
identity. -/
theorem pyReplace_id (old new : Str) (hold : old ≠ []) :
    ∀ s, splitFirstOcc s old = none → pyReplace s old new = s := by
  intro s
  induction s with
  | nil =>
    intro _
    unfold pyReplace
    rw [if_neg hold]
    exact pyReplaceF_nil old new _
  | cons c rest ih =>
    intro h
    rw [splitFirstOcc_cons] at h
    by_cases hp : old.isPrefixOf (c :: rest)
    · rw [if_pos hp] at h; simp at h
    · rw [if_neg hp] at h
      cases hs : splitFirstOcc rest old with
      | some q => rw [hs] at h; simp at h
      | none =>
        have hrec := ih hs
        unfold pyReplace
        rw [if_neg hold]
        have hlen : (c :: rest).length = rest.length + 1 := by simp
        rw [hlen, pyReplaceF_succ_cons, if_neg hp]
        unfold pyReplace at hrec
        rw [if_neg hold] at hrec
        rw [hrec]

/-- Unfolding equation of `subF` with positive fuel. -/
theorem subF_succ (f : Nat) (r : RE) (repl : Str → Option Str → Option Str) (s : Str) :
    subF (f + 1) r repl s =
      match search r s with
      | none => some s
      | some (pre, g0, g1, post) =>
        match repl g0 g1 with
        | none => none
        | some rep =>
          if g0 = [] then
            match post with
            | [] => some (pre ++ rep)
            | c :: rest =>
              (subF f r repl rest).map (fun t => pre ++ rep ++ c :: t)
          else (subF f r repl post).map (fun t => pre ++ rep ++ t) := rfl

/-- `re.sub` when the pattern has exactly one (nonempty) match: the prefix
and suffix are preserved and the match is replaced. -/
theorem sub_single (r : RE) (repl : Str → Option Str → Option Str)
    (s pre g0 : Str) (g1 : Option Str) (post rep : Str)
    (hs : search r s = some (pre, g0, g1, post))
    (hrep : repl g0 g1 = some rep)
    (hg : g0 ≠ [])
    (hpost : search r post = none) :
    sub r repl s = some (pre ++ rep ++ post) := by
  have hlt : post.length < s.length := post_lt_of_search r s pre g0 g1 post hs hg
  unfold sub
  rw [subF_succ, hs]
  simp only [hrep, if_neg hg]
  obtain ⟨m, hm⟩ : ∃ m, s.length = m + 1 := ⟨s.length - 1, by omega⟩
  rw [hm, subF_succ, hpost]
  rfl

/-- Unfolding equation of `takeDigits` on a nonempty input. -/
theorem takeDigits_cons (c : Char) (rest : Str) :
    takeDigits (c :: rest) =
      if c.isDigit then (c :: (takeDigits rest).1, (takeDigits rest).2)
      else ([], c :: rest) := rfl

/-- `takeDigits` splits its input into a maximal digit run and the rest. -/
theorem takeDigits_decomp :
    ∀ s d r, takeDigits s = (d, r) →
      s = d ++ r ∧ (∀ x ∈ d, x.isDigit = true) ∧
        (∀ x rs, r = x :: rs → x.isDigit = false) := by
  intro s
  induction s with
  | nil =>
    intro d r h
    have h' : (([] : Str), ([] : Str)) = (d, r) := h
    simp at h'
    obtain ⟨h1, h2⟩ := h'
    subst h1
    subst h2
    refine ⟨rfl, by simp, ?_⟩
    intro x rs hx
    simp at hx
  | cons c rest ih =>
    intro d r h
    rw [takeDigits_cons] at h
    by_cases hc : c.isDigit
    · rw [if_pos hc] at h
      cases hp : takeDigits rest with
      | mk d1 r1 =>
        rw [hp] at h
        simp at h
        obtain ⟨h1, h2⟩ := h
        subst h1
        subst h2
        obtain ⟨he, hd, hr⟩ := ih d1 r1 hp
        refine ⟨by simp [he], ?_, hr⟩
        intro x hx
        cases hx with
        | head => exact hc
        | tail _ hm => exact hd x hm
    · rw [if_neg hc] at h
      simp at h
      obtain ⟨h1, h2⟩ := h
      subst h1
      subst h2
      refine ⟨by simp, by simp, ?_⟩
      intro x rs hx
      cases hx
      simpa using hc

/-- `takeDigits` on a digit run followed by a non-digit boundary. -/
theorem takeDigits_append :
    ∀ d r, (∀ x ∈ d, x.isDigit = true) →
      (∀ x rs, r = x :: rs → x.isDigit = false) →
      takeDigits (d ++ r) = (d, r) := by
  intro d
  induction d with
  | nil =>
    intro r _ hr
    cases r with
    | nil => rfl
    | cons x rs =>
      have hx : x.isDigit = false := hr x rs rfl
      show takeDigits (x :: rs) = ([], x :: rs)
      rw [takeDigits_cons, if_neg (by simp [hx])]
  | cons c cs ih =>
    intro r hd hr
    have hc : c.isDigit = true := hd c (List.mem_cons_self c cs)
    have hcs : ∀ x ∈ cs, x.isDigit = true := fun x hx => hd x (List.mem_cons_of_mem c hx)
    show takeDigits (c :: (cs ++ r)) = (c :: cs, r)
    rw [takeDigits_cons, if_pos hc, ih r hcs hr]

/-- `takeDigits1` succeeds on a nonempty digit-run decomposition. -/
theorem takeDigits1_some_of (s d r : Str) (hd : d ≠ []) (h : takeDigits s = (d, r)) :
    takeDigits1 s = some (digitsToNat d, r) := by
  unfold takeDigits1
  rw [h]
  simp [hd]

/-- A successful `takeDigits1` comes from a nonempty digit run. -/
theorem takeDigits1_some (s : Str) (n : Nat) (r : Str)
    (h : takeDigits1 s = some (n, r)) :
    ∃ d, takeDigits s = (d, r) ∧ d ≠ [] ∧ n = digitsToNat d := by
  unfold takeDigits1 at h
  by_cases hd : (takeDigits s).1 = []
  · rw [if_pos hd] at h; simp at h
  · rw [if_neg hd] at h
    simp at h
    obtain ⟨h1, h2⟩ := h
    refine ⟨(takeDigits s).1, ?_, hd, h1.symm⟩
    rw [← h2]

/-- Unfolding equation of `expectDot` on a nonempty input. -/
theorem expectDot_cons (c : Char) (rest : Str) :
    expectDot (c :: rest) = if c = '.' then some rest else none := rfl

/-- `expectDot` succeeds exactly on a leading dot. -/
theorem expectDot_eq_some (s r : Str) : expectDot s = some r ↔ s = '.' :: r := by
  cases s with
  | nil => simp [expectDot]
  | cons c rest =>
    rw [expectDot_cons]
    by_cases hc : c = '.'
    · subst hc; simp
    · rw [if_neg hc]; simp [hc]

/-- Building a successful `parseVerTriple` from its pieces. -/
theorem verTriple_build (d1 d2 d3 rest : Str)
    (h1 : d1 ≠ []) (h2 : d2 ≠ []) (h3 : d3 ≠ [])
    (hd1 : ∀ x ∈ d1, x.isDigit = true) (hd2 : ∀ x ∈ d2, x.isDigit = true)
    (hd3 : ∀ x ∈ d3, x.isDigit = true)
    (hrest : ∀ x rs, rest = x :: rs → x.isDigit = false) :
    parseVerTriple (d1 ++ '.' :: (d2 ++ '.' :: (d3 ++ rest))) =
      some (digitsToNat d1, digitsToNat d2, digitsToNat d3, rest) := by
  have hdot : ∀ (t : Str) x rs, '.' :: t = x :: rs → x.isDigit = false := by
    intro t x rs hx
    cases hx
    decide
  have e1 : takeDigits1 (d1 ++ '.' :: (d2 ++ '.' :: (d3 ++ rest))) =
      some (digitsToNat d1, '.' :: (d2 ++ '.' :: (d3 ++ rest))) :=
    takeDigits1_some_of _ d1 _ h1 (takeDigits_append d1 _ hd1 (hdot _))
  have e2 : takeDigits1 (d2 ++ '.' :: (d3 ++ rest)) =
      some (digitsToNat d2, '.' :: (d3 ++ rest)) :=
    takeDigits1_some_of _ d2 _ h2 (takeDigits_append d2 _ hd2 (hdot _))
  have e3 : takeDigits1 (d3 ++ rest) = some (digitsToNat d3, rest) :=
    takeDigits1_some_of _ d3 _ h3 (takeDigits_append d3 rest hd3 hrest)
  have f1 : expectDot ('.' :: (d2 ++ '.' :: (d3 ++ rest))) =
      some (d2 ++ '.' :: (d3 ++ rest)) := (expectDot_eq_some _ _).mpr rfl
  have f2 : expectDot ('.' :: (d3 ++ rest)) = some (d3 ++ rest) :=
    (expectDot_eq_some _ _).mpr rfl
  simp [parseVerTriple, e1, e2, e3, f1, f2]

/-- Decomposing a successful `parseVerTriple` into its pieces. -/
theorem verTriple_decomp (s : Str) (a b c : Nat) (rest : Str)
    (h : parseVerTriple s = some (a, b, c, rest)) :
    ∃ d1 d2 d3 : Str, d1 ≠ [] ∧ d2 ≠ [] ∧ d3 ≠ [] ∧
      (∀ x ∈ d1, x.isDigit = true) ∧ (∀ x ∈ d2, x.isDigit = true) ∧
      (∀ x ∈ d3, x.isDigit = true) ∧
      (∀ x rs, rest = x :: rs → x.isDigit = false) ∧
      s = d1 ++ '.' :: (d2 ++ '.' :: (d3 ++ rest)) ∧
      a = digitsToNat d1 ∧ b = digitsToNat d2 ∧ c = digitsToNat d3 := by
  unfold parseVerTriple at h
  simp only [Option.bind_eq_some, Option.map_eq_some'] at h
  obtain ⟨⟨n1, t1⟩, hq1, r2, he1, ⟨n2, t2⟩, hq2, r4, he2, ⟨n3, t3⟩, hq3, hfin⟩ := h
  obtain ⟨d1, hp1, hd1, hn1⟩ := takeDigits1_some _ _ _ hq1
  obtain ⟨d2, hp2, hd2, hn2⟩ := takeDigits1_some _ _ _ hq2
  obtain ⟨d3, hp3, hd3, hn3⟩ := takeDigits1_some _ _ _ hq3
  have he1' : t1 = '.' :: r2 := (expectDot_eq_some _ _).mp he1
  have he2' : t2 = '.' :: r4 := (expectDot_eq_some _ _).mp he2
  obtain ⟨hs1, hdig1, _⟩ := takeDigits_decomp s d1 t1 hp1
  obtain ⟨hs2, hdig2, _⟩ := takeDigits_decomp r2 d2 t2 hp2
  obtain ⟨hs3, hdig3, hrest3⟩ := takeDigits_decomp r4 d3 t3 hp3
  have hfin' : (n1, n2, n3, t3) = (a, b, c, rest) := hfin
  simp at hfin'
  obtain ⟨ha, hb, hc, ht⟩ := hfin'
  subst ha
  subst hb
  subst hc
  subst ht
  refine ⟨d1, d2, d3, hd1, hd2, hd3, hdig1, hdig2, hdig3, hrest3, ?_, hn1, hn2, hn3⟩
  rw [hs1, he1', hs2, he2', hs3]

/-- `strict_semver_shape` holds exactly when the whole string parses as a
version triple. -/
theorem strict_iff (u : Str) :
    strict_semver_shape u = true ↔
      ∃ a b c, parseVerTriple u = some (a, b, c, []) := by
  unfold strict_semver_shape
  cases hp : parseVerTriple u with
  | none => simp
  | some q =>
    obtain ⟨a, b, c, rest⟩ := q
    cases rest with
    | nil => simp
    | cons x rs => simp

/-- Characterization of `_is_valid_semver`: Python's `$` also accepts a
single trailing newline after the strict `MAJOR.MINOR.PATCH` shape. -/
theorem valid_semver_cases (s : String) :
    is_valid_semver s = true ↔
      (strict_semver_shape s.data = true ∨
        ∃ u, s.data = u ++ ['\n'] ∧ strict_semver_shape u = true) := by
  constructor
  · intro h
    unfold is_valid_semver at h
    cases hp : parseVerTriple s.data with
    | none => rw [hp] at h; simp at h
    | some q =>
      obtain ⟨a, b, c, rest⟩ := q
      rw [hp] at h
      simp at h
      cases h with
      | inl h0 =>
        left
        subst h0
        exact (strict_iff s.data).mpr ⟨a, b, c, hp⟩
      | inr h1 =>
        right
        subst h1
        obtain ⟨d1, d2, d3, h1, h2, h3, hd1, hd2, hd3, _, he, _, _, _⟩ :=
          verTriple_decomp s.data a b c ['\n'] hp
        refine ⟨d1 ++ '.' :: d2 ++ '.' :: d3, ?_, ?_⟩
        · rw [he]; simp
        · refine (strict_iff _).mpr ⟨digitsToNat d1, digitsToNat d2, digitsToNat d3, ?_⟩
          have := verTriple_build d1 d2 d3 [] h1 h2 h3 hd1 hd2 hd3 (by intro x rs hx; simp at hx)
          simpa using this
  · intro h
    cases h with
    | inl hs =>
      obtain ⟨a, b, c, hp⟩ := (strict_iff s.data).mp hs
      unfold is_valid_semver
      rw [hp]
      simp
    | inr h1 =>
      obtain ⟨u, hu, hsu⟩ := h1
      obtain ⟨a, b, c, hp⟩ := (strict_iff u).mp hsu
      obtain ⟨d1, d2, d3, h1, h2, h3, hd1, hd2, hd3, _, he, _, _, _⟩ :=
        verTriple_decomp u a b c [] hp
      have hb := verTriple_build d1 d2 d3 ['\n'] h1 h2 h3 hd1 hd2 hd3
        (by intro x rs hx; cases hx; decide)
      unfold is_valid_semver
      have hsdata : s.data = d1 ++ '.' :: (d2 ++ '.' :: (d3 ++ ['\n'])) := by
        rw [hu, he]; simp
      rw [hsdata, hb]
      simp

/-- A replacement string without backslashes expands to itself. -/
theorem expandRepl_no_bs (g0 : Str) (g1 : Option Str) :
    ∀ t : Str, '\\' ∉ t → expandRepl t g0 g1 = some t := by
  intro t
  induction t with
  | nil => intro _; rfl
  | cons c rest ih =>
    intro h
    have hc : ¬ c = '\\' := by
      intro he; exact h (he ▸ List.mem_cons_self c rest)
    have hr : '\\' ∉ rest := fun hm => h (List.mem_cons_of_mem c hm)
    unfold expandRepl
    rw [if_neg hc, ih hr]
    rfl

/-- An association list none of whose keys is `p` has no lookup at `p`. -/
theorem lookup_none_of (p : String) :
    ∀ l : List (String × String), (∀ x ∈ l, x.1 ≠ p) → List.lookup p l = none := by
  intro l
  induction l with
  | nil => intro _; rfl
  | cons hd tl ih =>
    intro h
    obtain ⟨k, v⟩ := hd
    have hk : k ≠ p := h (k, v) (List.mem_cons_self _ _)
    have hb : (p == k) = false := beq_eq_false_iff_ne.mpr (Ne.symm hk)
    simp only [List.lookup, hb]
    exact ih (fun x hx => h x (List.mem_cons_of_mem _ hx))

/-- C1: with rollback enabled, an exception triggers the rollback and
`__exit__` returns `False`, so the exception propagates; but after
`disable_rollback()` the method falls through to `return True`, so Python
*suppresses* the triggering exception — the second conjunct evaluates the code
at the failing input and contradicts the claim that the context never
suppresses it. -/
theorem c1_exit_behavior :
    rollback_context_exit true true = (true, false) ∧
    rollback_context_exit true false = (false, true) :=
  ⟨rfl, rfl⟩

/-- C2: version restoration with a replacement template does *not* apply the
§4.1 substitution: on a file at mutated version `1.2.3` with checkpointed
version `1.0.0`, `_rollback_version_state` replaces the literal
`version = "CURRENT_VERSION"` (absent), leaves the content unchanged and
reports success, whereas the §4.1 rule (as run by `sync_versions`) rewrites
the file to `1.0.0`. -/
theorem c2_rollback_template_differs :
    rollback_version_state
        [⟨"pyproject.toml", "version\\s*=\\s*\"([^\"]+)\"",
          some "version = \"{new_version}\""⟩]
        [("pyproject.toml", "1.0.0")]
        [("pyproject.toml", some "version = \"1.2.3\"\n")]
      = ([("pyproject.toml", some "version = \"1.2.3\"\n")], true) ∧
    sync_versions
        [⟨"pyproject.toml", "version\\s*=\\s*\"([^\"]+)\"",
          some "version = \"{new_version}\""⟩]
        [("pyproject.toml", some "version = \"1.2.3\"\n")] "1.0.0"
      = .ok ([("pyproject.toml", "1.0.0")],
             [("pyproject.toml", some "version = \"1.0.0\"\n")]) :=
  ⟨rfl, rfl⟩

/-- C3: for every base version of exact shape `MAJOR.MINOR.PATCH`,
`_calculate_new_version` yields `MAJOR.MINOR.(PATCH+1)` for a patch bump,
`MAJOR.(MINOR+1).0` for a minor bump and `(MAJOR+1).0.0` for a major bump,
with exact arbitrary-precision arithmetic. -/
theorem c3_bump_arithmetic (s : String) (M m p : Nat)
    (h : parseVerTriple s.data = some (M, m, p, [])) :
    calculate_new_version s "patch" = s!"{M}.{m}.{p + 1}" ∧
    calculate_new_version s "minor" = s!"{M}.{m + 1}.0" ∧
    calculate_new_version s "major" = s!"{M + 1}.0.0" := by
  refine ⟨?_, ?_, ?_⟩ <;> simp [calculate_new_version, h]

/-- Witness for C3 at `0.0.0` and at a large value near `2^31`. -/
theorem c3_bump_arithmetic_witness :
    calculate_new_version "0.0.0" "patch" = "0.0.1" ∧
    calculate_new_version "2147483646.2.3" "major" = "2147483647.0.0" := by
  refine ⟨?_, ?_⟩
  · exact ((c3_bump_arithmetic "0.0.0" 0 0 0 rfl).1).trans (by rfl)
  · exact ((c3_bump_arithmetic "2147483646.2.3" 2147483646 2 3 rfl).2.2).trans (by rfl)

/-- C10: when `get_current_versions` yields an empty mapping, `bump_version`
raises `ValueError` and touches no file; it never returns an empty success
mapping. -/
theorem c10_bump_empty_raises (formats : List VersionFormat) (fs : FS) (bt : String)
    (h : get_current_versions formats fs = []) :
    bump_version formats fs bt = .error "No version files found to bump" := by
  unfold bump_version
  rw [h]

/-- Witness for C10 on an empty configuration. -/
theorem c10_bump_empty_raises_witness :
    bump_version [] [] "patch" = .error "No version files found to bump" :=
  c10_bump_empty_raises [] [] "patch" rfl

/-- C6 counterexample: `"1.2.3\n"` is not of strict `MAJOR.MINOR.PATCH`
shape, yet `sync_versions` does not raise for it — it proceeds and rewrites
the configured file, because Python's `$` matches before a trailing
newline. -/
theorem c6_counterexample :
    strict_semver_shape "1.2.3\n".data = false ∧
    sync_versions [⟨"f", "v=\"([^\"]+)\"", none⟩] [("f", some "v=\"0.1.0\"")] "1.2.3\n"
      = .ok ([("f", "1.2.3\n")], [("f", some "v=\"1.2.3\n\"")]) :=
  ⟨rfl, rfl⟩

/-- C6 (amended): `sync_versions` raises, before reading or writing any file,
for exactly the targets failing the Python semver check — everything except
strict `MAJOR.MINOR.PATCH` optionally followed by one trailing newline — and
succeeds for every accepted target; in particular strict semver targets are
never rejected. -/
theorem c6_sync_validation :
    (∀ s : String, is_valid_semver s = true ↔
      (strict_semver_shape s.data = true ∨
        ∃ u, s.data = u ++ ['\n'] ∧ strict_semver_shape u = true)) ∧
    (∀ (formats : List VersionFormat) (fs : FS) (t : String),
      is_valid_semver t = false →
        sync_versions formats fs t = .error ("Invalid target version: " ++ t)) ∧
    (∀ (formats : List VersionFormat) (fs : FS) (t : String),
      is_valid_semver t = true →
        ∃ res, sync_versions formats fs t = .ok res) := by
  refine ⟨valid_semver_cases, ?_, ?_⟩
  · intro formats fs t h
    unfold sync_versions
    rw [h]
    simp
  · intro formats fs t h
    unfold sync_versions
    rw [h]
    simp

/-- Witness for C6 at concrete accepted and rejected targets. -/
theorem c6_sync_validation_witness :
    is_valid_semver "1.2.3" = true ∧
    sync_versions [] [] "x" = .error ("Invalid target version: " ++ "x") ∧
    ∃ res, sync_versions [] [] "1.2.3" = .ok res :=
  ⟨(c6_sync_validation.1 "1.2.3").mpr (Or.inl rfl),
   c6_sync_validation.2.1 [] [] "x" rfl,
   c6_sync_validation.2.2 [] [] "1.2.3" rfl⟩

/-- C7 counterexample: base `abc` is not semver, yet `bump_version` rewrites
the configured file and returns a success mapping as if the bump
succeeded — it is not rejected. -/
theorem c7_counterexample :
    strict_semver_shape "abc".data = false ∧
    get_current_versions [⟨"p", "v=\"([^\"]+)\"", none⟩] [("p", some "v=\"abc\"")]
      = [("p", "abc")] ∧
    bump_version [⟨"p", "v=\"([^\"]+)\"", none⟩] [("p", some "v=\"abc\"")] "patch"
      = .ok ([("p", "abc")], [("p", some "v=\"abc\"")]) :=
  ⟨rfl, rfl, rfl⟩

/-- C7 (amended): non-semver version strings are accepted by reads
(`read_version` returns group 1 with no semver validation), but
`bump_version` does not reject a non-semver base: when the base has no
`MAJOR.MINOR.PATCH` prefix the computed new version is the base itself, and
the files are still rewritten and reported as updated (evaluated concretely in
the last conjunct). -/
theorem c7_no_bump_rejection :
    (∀ (fmt : VersionFormat) (fs : FS) (c : String) (r : RE) (k : Nat)
        (pre g0 g1 post : Str),
      FS.read fs fmt.file_path = some (some c) →
      compileRE fmt.pattern = some (r, k) →
      search r c.data = some (pre, g0, some g1, post) →
      read_version fmt fs = some (String.mk g1)) ∧
    (∀ (base bt : String), parseVerTriple base.data = none →
      calculate_new_version base bt = base) ∧
    bump_version [⟨"p", "v=\"([^\"]+)\"", none⟩] [("p", some "v=\"abc\"")] "patch"
      = .ok ([("p", "abc")], [("p", some "v=\"abc\"")]) := by
  refine ⟨?_, ?_, rfl⟩
  · intro fmt fs c r k pre g0 g1 post h1 h2 h3
    simp only [read_version, h1, h2, h3]
    rfl
  · intro base bt h
    unfold calculate_new_version
    rw [h]

/-- Witness for C7 at a concrete read and a concrete non-semver base. -/
theorem c7_no_bump_rejection_witness :
    read_version ⟨"p", "v=\"([^\"]+)\"", none⟩ [("p", some "v=\"xy\"")] = some "xy" ∧
    calculate_new_version "abc" "patch" = "abc" :=
  ⟨c7_no_bump_rejection.1 ⟨"p", "v=\"([^\"]+)\"", none⟩ [("p", some "v=\"xy\"")]
      "v=\"xy\"" _ _ _ _ _ _ rfl rfl rfl,
   c7_no_bump_rejection.2.1 "abc" "patch" rfl⟩

/-- C8 counterexample: with the only configured file existing but unreadable,
`create_checkpoint` succeeds and returns a checkpoint with *empty* snapshots
instead of surfacing an error. -/
theorem c8_counterexample :
    create_checkpoint [⟨"Cargo.toml", "version\\s*=\\s*\"([^\"]+)\"", none⟩]
        [("Cargo.toml", none)] "op" "desc"
      = ⟨"op", "desc", [], []⟩ :=
  rfl

/-- C8 (amended): a configured file that exists but cannot be read is skipped
with a warning during snapshot capture — `create_checkpoint` still returns a
checkpoint whose `file_snapshots` has no entry for that file, rather than
failing. -/
theorem c8_unreadable_skipped (formats : List VersionFormat) (fs : FS)
    (p op desc : String) (h : FS.read fs p = some none) :
    List.lookup p (create_checkpoint formats fs op desc).file_snapshots = none := by
  apply lookup_none_of
  intro x hx
  unfold create_checkpoint capture_file_snapshots at hx
  rw [List.mem_append] at hx
  rcases hx with hx | hx
  · obtain ⟨fmt, _, hfx⟩ := List.mem_filterMap.mp hx
    cases hr : FS.read fs fmt.file_path with
    | none => rw [hr] at hfx; simp at hfx
    | some o =>
      cases o with
      | none => rw [hr] at hfx; simp at hfx
      | some cc =>
        rw [hr] at hfx
        simp at hfx
        intro hxp
        rw [← hfx] at hxp
        simp at hxp
        rw [hxp] at hr
        rw [h] at hr
        simp at hr
  · obtain ⟨q, _, hfx⟩ := List.mem_filterMap.mp hx
    cases hr : FS.read fs q with
    | none => rw [hr] at hfx; simp at hfx
    | some o =>
      cases o with
      | none => rw [hr] at hfx; simp at hfx
      | some cc =>
        rw [hr] at hfx
        simp at hfx
        intro hxp
        rw [← hfx] at hxp
        simp at hxp
        rw [hxp] at hr
        rw [h] at hr
        simp at hr

/-- Witness for C8 on a one-file configuration with an unreadable file. -/
theorem c8_unreadable_skipped_witness :
    List.lookup "Cargo.toml"
      (create_checkpoint [⟨"Cargo.toml", "x", none⟩] [("Cargo.toml", none)]
        "o" "d").file_snapshots = none :=
  c8_unreadable_skipped [⟨"Cargo.toml", "x", none⟩] [("Cargo.toml", none)]
    "Cargo.toml" "o" "d" rfl

/-- C9 counterexample: the pattern `version` compiles with zero capturing
groups, yet the schema validator accepts it — the ≥1-group condition is not
checked at load time. -/
theorem c9_counterexample :
    validate_version_formats [⟨"f", "version", none⟩] = .ok [⟨"f", "version", none⟩] ∧
    (compileRE "version").map Prod.snd = some 0 :=
  ⟨rfl, rfl⟩

/-- C9 (amended): schema-load validation rejects an empty format list and any
pattern `re.compile` refuses, but does not inspect capturing groups; a
zero-group pattern passes validation, and the missing group is first
discovered at use time, where reading the version yields nothing for that
file even though the pattern matches (last conjunct, evaluated on matching
content). -/
theorem c9_validator_groups :
    (∀ formats : List VersionFormat,
      validate_version_formats formats = .ok formats ↔
        (formats ≠ [] ∧ ∀ f ∈ formats, (compileRE f.pattern).isSome = true)) ∧
    read_version ⟨"f", "version", none⟩ [("f", some "version 1.2.3")] = none := by
  refine ⟨?_, rfl⟩
  intro formats
  unfold validate_version_formats
  by_cases he : formats = []
  · rw [if_pos he]
    subst he
    simp
  · rw [if_neg he]
    by_cases ha : formats.all (fun fmt => (compileRE fmt.pattern).isSome) = true
    · rw [if_pos ha]
      simp [he]
      exact List.all_eq_true.mp ha
    · rw [if_neg ha]
      simp [he]
      rw [List.all_eq_true] at ha
      push_neg at ha
      obtain ⟨x, hx, hcx⟩ := ha
      exact ⟨x, hx, Option.not_isSome_iff_eq_none.mp hcx⟩

/-- Witness for C9 on a compiling single-format schema. -/
theorem c9_validator_groups_witness :
    validate_version_formats [⟨"a", "b", none⟩] = .ok [⟨"a", "b", none⟩] := by
  refine (c9_validator_groups.1 [⟨"a", "b", none⟩]).mpr ⟨by simp, ?_⟩
  intro f hf
  rw [List.mem_singleton] at hf
  subst hf
  rfl

/-- C4 counterexample: the pattern `v(\d)x` matches `v1x`, but after
`sync_versions` rewrites the file to `v1.2.3x` the pattern no longer matches,
so `get_current_versions` omits the file instead of returning the synced
version — the sync-then-read round trip fails. -/
theorem c4_counterexample :
    sync_versions [⟨"vfile", "v(\\d)x", none⟩] [("vfile", some "v1x")] "1.2.3"
      = .ok ([("vfile", "1.2.3")], [("vfile", some "v1.2.3x")]) ∧
    get_current_versions [⟨"vfile", "v(\\d)x", none⟩] [("vfile", some "v1.2.3x")]
      = [] :=
  ⟨rfl, rfl⟩

/-- C4 (amended): the sync-then-read round trip returns `v` for a configured
file provided the pattern still matches the rewritten content with captured
group `v` (true in particular for the built-in manifest formats); without
that proviso the file can drop out of the read result entirely. -/
theorem c4_roundtrip (fmt : VersionFormat) (fs : FS) (c c' v : String)
    (r : RE) (k : Nat)
    (hv : is_valid_semver v = true)
    (hread : FS.read fs fmt.file_path = some (some c))
    (hcomp : compileRE fmt.pattern = some (r, k))
    (_hmatch : (search r c.data).isSome = true)
    (hsub : sync_subst fmt v c = some c')
    (hre : (search r c'.data).map (fun q => q.2.2.1) = some (some v.data)) :
    sync_versions [fmt] fs v
      = .ok ([(fmt.file_path, v)], FS.write fs fmt.file_path c') ∧
    get_current_versions [fmt] (FS.write fs fmt.file_path c')
      = [(fmt.file_path, v)] := by
  have hfile : sync_file fmt v (fs, ([] : List (String × String)))
      = (FS.write fs fmt.file_path c', [(fmt.file_path, v)]) := by
    simp [sync_file, hread, hsub]
  have hrv : read_version fmt (FS.write fs fmt.file_path c') = some v := by
    cases hs : search r c'.data with
    | none => rw [hs] at hre; simp at hre
    | some q =>
      obtain ⟨q1, q2, q3, q4⟩ := q
      rw [hs] at hre
      simp at hre
      simp [read_version, FS.read_write, hcomp, hs, hre, mkData]
  constructor
  · simp [sync_versions, hv, hfile]
  · simp [get_current_versions, hrv]

/-- Witness for C4 on the built-in Cargo/pyproject manifest format. -/
theorem c4_roundtrip_witness :
    sync_versions
        [⟨"Cargo.toml", "version\\s*=\\s*\"([^\"]+)\"",
          some "version = \"{new_version}\""⟩]
        [("Cargo.toml", some "version = \"1.2.3\"\n")] "2.0.0"
      = .ok ([("Cargo.toml", "2.0.0")],
             [("Cargo.toml", some "version = \"2.0.0\"\n")]) ∧
    get_current_versions
        [⟨"Cargo.toml", "version\\s*=\\s*\"([^\"]+)\"",
          some "version = \"{new_version}\""⟩]
        [("Cargo.toml", some "version = \"2.0.0\"\n")]
      = [("Cargo.toml", "2.0.0")] := by
  have := c4_roundtrip
    ⟨"Cargo.toml", "version\\s*=\\s*\"([^\"]+)\"", some "version = \"{new_version}\""⟩
    [("Cargo.toml", some "version = \"1.2.3\"\n")]
    "version = \"1.2.3\"\n" "version = \"2.0.0\"\n" "2.0.0" _ _
    rfl rfl rfl rfl rfl rfl
  exact ⟨this.1.trans (by rfl), this.2.trans (by rfl)⟩

/-- C5 counterexample: with two matches of `v="([^"]+)"` in the file,
`re.sub` rewrites *both* with the first match's substitution, so the bytes
after the first matched span are not preserved (the second version `9.9.9` is
overwritten with `1.2.4`). -/
theorem c5_counterexample :
    bump_version [⟨"f", "v=\"([^\"]+)\"", none⟩]
        [("f", some "v=\"1.2.3\" v=\"9.9.9\"")] "patch"
      = .ok ([("f", "1.2.4")], [("f", some "v=\"1.2.4\" v=\"1.2.4\"")]) ∧
    "v=\"1.2.4\" v=\"1.2.4\"" ≠ "v=\"1.2.4\" v=\"9.9.9\"" :=
  ⟨rfl, by decide⟩

/-- C5 (amended): with no replacement template, when the pattern matches
exactly once in the content and the captured text occurs exactly once inside
the matched span (and no backslash appears in the substituted text), a bump
rewrites only the captured substring: all bytes before and after it are
byte-identical.  When the pattern matches more than once, `re.sub` rewrites
every match with the first match's substitution (see the counterexample). -/
theorem c5_single_match_bump (p pat : String) (fs : FS) (c nv : String)
    (r : RE) (k : Nat) (pre g0 g1 post a b : Str) (bt : String)
    (hread : FS.read fs p = some (some c))
    (hcomp : compileRE pat = some (r, k))
    (hsearch : search r c.data = some (pre, g0, some g1, post))
    (hunique : search r post = none)
    (hsplit : splitFirstOcc g0 g1 = some (a, b))
    (honce : splitFirstOcc b g1 = none)
    (hg1 : g1 ≠ [])
    (hnv : calculate_new_version (String.mk g1) bt = nv)
    (hnb : '\\' ∉ a ++ nv.data ++ b) :
    bump_version [⟨p, pat, none⟩] fs bt
      = .ok ([(p, nv)],
             FS.write fs p (String.mk (pre ++ (a ++ nv.data ++ b) ++ post))) := by
  have hbase : get_current_versions [⟨p, pat, none⟩] fs = [(p, String.mk g1)] := by
    simp [get_current_versions, read_version, hread, hcomp, hsearch]
  have hg0 : g0 = a ++ g1 ++ b := splitFirstOcc_decomp g1 g0 a b hsplit
  have hg0ne : g0 ≠ [] := by
    rw [hg0]
    intro hh
    simp at hh
    exact hg1 hh.2.1
  have hrepl : pyReplace g0 g1 nv.data = a ++ nv.data ++ b := by
    rw [pyReplace_split g1 nv.data hg1 g0 a b hsplit,
        pyReplace_id g1 nv.data hg1 b honce]
  have hsubst : subStr r (pyReplace g0 g1 nv.data) c.data
      = some (pre ++ (a ++ nv.data ++ b) ++ post) := by
    rw [hrepl]
    exact sub_single r _ c.data pre g0 (some g1) post _ hsearch
      (expandRepl_no_bs g0 (some g1) _ hnb) hg0ne hunique
  have hfile : bump_file ⟨p, pat, none⟩ nv (fs, ([] : List (String × String)))
      = (FS.write fs p (String.mk (pre ++ (a ++ nv.data ++ b) ++ post)),
         [(p, nv)]) := by
    simp [bump_file, hread, hcomp, hsearch, hsubst]
  simp [bump_version, hbase, hnv, hfile]

/-- Witness for C5: the §8 scenario, `version = "1.2.3"` bumped with `minor`
to `version = "1.3.0"`, all other bytes untouched. -/
theorem c5_single_match_bump_witness :
    bump_version [⟨"Cargo.toml", "version\\s*=\\s*\"([^\"]+)\"", none⟩]
        [("Cargo.toml", some "version = \"1.2.3\"\n")] "minor"
      = .ok ([("Cargo.toml", "1.3.0")],
             [("Cargo.toml", some "version = \"1.3.0\"\n")]) := by
  have := c5_single_match_bump "Cargo.toml" "version\\s*=\\s*\"([^\"]+)\""
    [("Cargo.toml", some "version = \"1.2.3\"\n")]
    "version = \"1.2.3\"\n" "1.3.0" _ _
    [] "version = \"1.2.3\"".data "1.2.3".data "\n".data
    "version = \"".data "\"".data "minor"
    rfl rfl rfl rfl rfl rfl (by decide) rfl (by decide)
  exact this.trans (by rfl)

end DGT
